import Mathlib

/-!
Shallow embedding of the tool-use agent loop of `gdb_mcp.py`
(MCPClient, GDBCommandExecutor.is_safe_command, AIAgentCommand.invoke,
AIAgentCommand._process_agent_response), together with spec-side
restatements and theorems checking the spec's claims against the code.

Python strings are modelled as Lean `String` (with `List Char` as the
working representation); Python `str.strip()` / `str.split()` /
`str.split('\n')` are modelled character-for-character below. External
collaborators (the remote model, GDB command execution) are parameters:
`oracle : List Message → String` gives the remote model's reply to a full
message history, `exec : String → String` gives GDB's textual output for a
command (the real `execute_command` always returns a string, embedding
errors in the text).
-/

namespace GdbMcp

/-- Whitespace as recognized by Python's default `str.strip()` / `str.split()`
(restricted to the ASCII whitespace characters). -/
def isPyWS (c : Char) : Bool :=
  c == ' ' || c == '\t' || c == '\n' || c == '\r' || c == '\x0b' || c == '\x0c'

/-- Python `str.strip()` on the character list: drop whitespace from both ends. -/
def pyStrip (l : List Char) : List Char :=
  ((l.dropWhile isPyWS).reverse.dropWhile isPyWS).reverse

/-- Python `str.strip()` on strings. -/
def pyStripS (s : String) : String := String.mk (pyStrip s.data)

/-- Python `str.split('\n')`: split at every newline, keeping empty pieces
(`"".split('\n') == ['']`). -/
def splitNl : List Char → List (List Char)
  | [] => [[]]
  | c :: cs =>
    match splitNl cs with
    | [] => [[]]
    | r :: rs => if c = '\n' then [] :: r :: rs else (c :: r) :: rs

/-- Dropping a prefix cannot lengthen a list (used for termination of `pySplit`). -/
theorem dropWhile_len_le {α : Type} (p : α → Bool) :
    ∀ l : List α, (l.dropWhile p).length ≤ l.length
  | [] => Nat.le_refl _
  | c :: cs => by
    simp only [List.dropWhile]
    split
    · exact Nat.le_succ_of_le (dropWhile_len_le p cs)
    · exact Nat.le_refl _

/-- Worker for `pySplit`, structurally recursive on a fuel bound of the list
length (so that it reduces in the kernel): take the maximal non-whitespace
token at the head, skip whitespace otherwise. -/
def pySplitFuel : Nat → List Char → List (List Char)
  | _, [] => []
  | 0, _ :: _ => []
  | n + 1, c :: cs =>
    if isPyWS c then pySplitFuel n cs
    else (c :: cs.takeWhile (fun d => !isPyWS d)) ::
      pySplitFuel n (cs.dropWhile (fun d => !isPyWS d))

/-- Python `str.split()` (no separator): split on whitespace runs, dropping
empty tokens. -/
def pySplit (l : List Char) : List (List Char) := pySplitFuel l.length l

theorem pySplitFuel_irrel : ∀ n m (l : List Char), l.length ≤ n → l.length ≤ m →
    pySplitFuel n l = pySplitFuel m l := by
  intro n
  induction n with
  | zero =>
    intro m l hn _
    cases l with
    | nil => cases m <;> rfl
    | cons c cs => simp at hn
  | succ n ih =>
    intro m l hn hm
    cases l with
    | nil => cases m <;> rfl
    | cons c cs =>
      cases m with
      | zero => simp at hm
      | succ m =>
        simp only [pySplitFuel]
        by_cases hw : isPyWS c = true
        · simp only [if_pos hw]
          exact ih m cs (Nat.le_of_succ_le_succ hn) (Nat.le_of_succ_le_succ hm)
        · simp only [if_neg hw]
          rw [ih m _ (Nat.le_trans (dropWhile_len_le _ cs) (Nat.le_of_succ_le_succ hn))
              (Nat.le_trans (dropWhile_len_le _ cs) (Nat.le_of_succ_le_succ hm))]

theorem pySplit_nil : pySplit [] = [] := rfl

theorem pySplit_cons_ws {c : Char} (h : isPyWS c = true) (cs : List Char) :
    pySplit (c :: cs) = pySplit cs := by
  unfold pySplit
  rw [show (c :: cs).length = cs.length + 1 from rfl]
  simp only [pySplitFuel, if_pos h]

theorem pySplit_cons_tok {c : Char} (h : ¬(isPyWS c = true)) (cs : List Char) :
    pySplit (c :: cs) =
      (c :: cs.takeWhile (fun d => !isPyWS d)) ::
        pySplit (cs.dropWhile (fun d => !isPyWS d)) := by
  unfold pySplit
  rw [show (c :: cs).length = cs.length + 1 from rfl]
  simp only [pySplitFuel, if_neg h]
  rw [pySplitFuel_irrel cs.length _ _ (dropWhile_len_le _ cs) (Nat.le_refl _)]

/-- Leftmost occurrence search: `splitFirst needle hay` returns
`some (before, after)` where `hay = before ++ needle ++ after` for the
leftmost occurrence of `needle`, and `none` if `needle` does not occur.
This models what `re.search` does for a pattern made of literals with one
lazy `(.*?)` group (leftmost match, shortest group). -/
def splitFirst (needle : List Char) : List Char → Option (List Char × List Char)
  | [] => if needle.isEmpty then some ([], []) else none
  | c :: cs =>
    if needle.isPrefixOf (c :: cs) then some ([], (c :: cs).drop needle.length)
    else
      match splitFirst needle cs with
      | some (pre, post) => some (c :: pre, post)
      | none => none

/-- Model of `re.search(r'```TAG\n(.*?)```', response, re.DOTALL)`:
find the leftmost "```TAG\n", then take the group up to the first
following "```". Returns the group's text. -/
def extractBlock (tag : String) (s : String) : Option String :=
  match splitFirst (('`' :: '`' :: '`' :: []) ++ tag.data ++ ['\n']) s.data with
  | none => none
  | some (_, rest) =>
    match splitFirst ('`' :: '`' :: '`' :: []) rest with
    | none => none
    | some (content, _) => some (String.mk content)

/-- The fixed denylist `unsafe_commands` of `GDBCommandExecutor.is_safe_command`. -/
def denylist : List String :=
  ["quit", "exit", "detach", "kill", "set", "shell", "source",
   "define", "document", "handle", "signal", "attach"]

/-- Python `str.lower()` (ASCII commands in practice). -/
def pyLower (s : String) : String := String.mk (s.data.map Char.toLower)

/-- Model of `GDBCommandExecutor.is_safe_command`: tokenize
`command.strip().split()`; empty token list is not safe; otherwise safe
iff the lowercased first token is not in the denylist. -/
def is_safe_command (command : String) : Bool :=
  match pySplit (pyStrip command.data) with
  | [] => false
  | t :: _ => !(denylist.contains (pyLower (String.mk t)))

/-- One entry of `MCPClient.messages`: `(role, text)`, flattening the
Python `{"role": r, "parts": [{"text": t}]}` record. -/
abbrev Message : Type := String × String

/-- Role mapping of `MCPClient.add_message`:
`gemini_role = "model" if role == "assistant" else "user"`. -/
def geminiRole (role : String) : String :=
  if role = "assistant" then "model" else "user"

/-- Model of `MCPClient.add_message`: append the message with the mapped role. -/
def addMessage (msgs : List Message) (role content : String) : List Message :=
  msgs ++ [(geminiRole role, content)]

/-- Text of the most recent message, `self.mcp_client.messages[-1]["parts"][0]["text"]`
(the loop only reads it when the history is non-empty; `""` stands for the
out-of-range case Python would raise on). -/
def lastText (msgs : List Message) : String :=
  match msgs.getLast? with
  | some m => m.2
  | none => ""

/-- What the extraction
`result["candidates"][0]["content"]["parts"][0]["text"]` does on a decoded
payload: succeed with the text; raise a `KeyError` or `IndexError` (the only
exception classes the `try` in `MCPClient.query` catches), with `str(e)`
given; or raise some other exception such as a `TypeError` from indexing a
wrong container type (not caught — it propagates with its own message). -/
inductive ExtractOutcome : Type
  | ok (text : String) : ExtractOutcome
  | keyIndexErr (e : String) : ExtractOutcome
  | typeErr (e : String) : ExtractOutcome
deriving Repr, DecidableEq

/-- A decoded JSON payload as `MCPClient.query` observes it: its rendered
form `str(result)` (used by the caught branch's f-string `{result}`), and
what the text-field extraction does on it. -/
structure JsonPayload where
  rendered : String
  extract : ExtractOutcome
deriving Repr, DecidableEq

/-- Transport result of `requests.post` as `MCPClient.query` observes it:
HTTP status, the raw body `response.text`, and the outcome of
`response.json()` — `Except.error e` when the body is not valid JSON and the
decoder raises (uncaught) with message `e`, `Except.ok payload` otherwise. -/
structure HttpResponse where
  status : Nat
  text : String
  json : Except String JsonPayload

/-- Model of `MCPClient.query` with an explicit transport: append the prompt
as a user message, post the whole history; every failure raises (modelled as
`Except.error` carrying the raised exception's message). A non-200 status
raises the formatted message embedding `response.text`; `response.json()` on
an invalid body raises its decode error uncaught (its message does not embed
the body); a `KeyError`/`IndexError` during extraction is caught and
re-raised as the formatted message embedding `result`; any other extraction
exception (e.g. `TypeError`) propagates uncaught with its own message.
On success the response text is appended as a model message and returned. -/
def query (transport : List Message → HttpResponse) (msgs : List Message)
    (message : String) : List Message × Except String String :=
  let m1 := addMessage msgs "user" message
  let r := transport m1
  if r.status ≠ 200 then
    (m1, Except.error ("API 오류: " ++ toString r.status ++ " - " ++ r.text))
  else
    match r.json with
    | Except.error e => (m1, Except.error e)
    | Except.ok payload =>
      match payload.extract with
      | ExtractOutcome.ok content => (addMessage m1 "assistant" content, Except.ok content)
      | ExtractOutcome.keyIndexErr e =>
        (m1, Except.error ("API 응답 파싱 오류: " ++ e ++ " - " ++ payload.rendered))
      | ExtractOutcome.typeErr e => (m1, Except.error e)

/-- Model of `MCPClient.query` under a responsive transport (status 200 and a
well-formed payload), which is the only case in which `AIAgentCommand.invoke`
continues running: `oracle` maps the full posted history to the model's reply.
A transport failure instead raises out of `invoke` and ends the GDB command;
that path is covered by `query` above. -/
def queryOk (oracle : List Message → String) (msgs : List Message)
    (message : String) : List Message × String :=
  let m1 := addMessage msgs "user" message
  let resp := oracle m1
  (addMessage m1 "assistant" resp, resp)

/-- Model of the per-command body of the loop in `_process_agent_response`:
strip each line, skip empty ones, execute safe commands and record
`"명령어: {cmd}\n결과:\n{result}"`, record the unsafe-command message for
denied ones. Returns `(records, executed)` where `executed` is the ghost
list of commands actually run through `exec` (in order). -/
def processCmds (gexec : String → String) : List String → List String × List String
  | [] => ([], [])
  | cmd :: rest =>
    let c := pyStripS cmd
    if c = "" then processCmds gexec rest
    else
      let pr := processCmds gexec rest
      if is_safe_command c then
        (("명령어: " ++ c ++ "\n결과:\n" ++ gexec c) :: pr.1, c :: pr.2)
      else
        (("안전하지 않은 명령어입니다: " ++ c) :: pr.1, pr.2)

/-- Observable result of one `_process_agent_response` call. `messages` is the
session history afterwards; `done` is the returned boolean (completion signal);
the remaining fields are ghost observations of what the call did: the result
records and executed commands of the command block, whether the results
feedback `query` was issued and with which text, and the stripped texts the
operator was shown for the analysis / next-step / complete blocks. -/
structure ProcResult where
  messages : List Message
  done : Bool
  executed : List String
  records : List String
  feedbackSent : Bool
  sentText : Option String
  analysisShown : Option String
  nextStepShown : Option String
  completeShown : Option String
deriving Repr, DecidableEq

/-- Model of `AIAgentCommand._process_agent_response`: extract the first
`gdb-command` block; if present, run its lines through the safety filter and
executor, join the records with blank lines and send
`"명령어 실행 결과:\n\n" + results_text` back through the client (whose reply
is not used this iteration); then surface analysis / next-step blocks, and
return `True` exactly when a `complete` block is present. -/
def processAgentResponse (oracle : List Message → String) (gexec : String → String)
    (msgs : List Message) (response : String) : ProcResult :=
  match extractBlock "gdb-command" response with
  | some content =>
    let lines := (splitNl (pyStrip content.data)).map String.mk
    let rs := processCmds gexec lines
    let sent := "명령어 실행 결과:\n\n" ++ String.intercalate "\n\n" rs.1
    let q := queryOk oracle msgs sent
    { messages := q.1
      done := (extractBlock "complete" response).isSome
      executed := rs.2
      records := rs.1
      feedbackSent := true
      sentText := some sent
      analysisShown := (extractBlock "analysis" response).map pyStripS
      nextStepShown := (extractBlock "next-step" response).map pyStripS
      completeShown := (extractBlock "complete" response).map pyStripS }
  | none =>
    { messages := msgs
      done := (extractBlock "complete" response).isSome
      executed := []
      records := []
      feedbackSent := false
      sentText := none
      analysisShown := (extractBlock "analysis" response).map pyStripS
      nextStepShown := (extractBlock "next-step" response).map pyStripS
      completeShown := (extractBlock "complete" response).map pyStripS }

/-- Terminal state of one agent run: the loop broke on a completion signal, or
the iteration budget ran out. -/
inductive Outcome : Type
  | Completed : Outcome
  | Exhausted : Outcome
deriving Repr, DecidableEq

/-- Ghost record of one loop iteration: its 1-based index, the history before
the iteration, the history right after the response text was obtained (equal
to `msgsBefore` when no fresh query was issued), the response text processed,
and the processing result. -/
structure StepTrace where
  idx : Nat
  msgsBefore : List Message
  msgsAfterObtain : List Message
  response : String
  proc : ProcResult
deriving Repr, DecidableEq

/-- Result of one agent run: the final value of `iteration`, the terminal
outcome, the final history, the ghost list of all commands executed during
the run, and the per-iteration trace. -/
structure RunResult where
  iterations : Nat
  outcome : Outcome
  messages : List Message
  executed : List String
  trace : List StepTrace
deriving Repr, DecidableEq

/-- `self.max_iterations = 10`. -/
def maxIterations : Nat := 10

/-- Model of the `while iteration < self.max_iterations` loop of
`AIAgentCommand.invoke`, with `fuel = max_iterations - iteration` remaining
iterations. Each pass increments `iteration`; on the first iteration the user
request is sent as a fresh query, on later iterations the text of the last
stored message is reprocessed; the loop breaks when
`_process_agent_response` reports completion, and ends Exhausted when the
budget runs out. -/
def loopAux (oracle : List Message → String) (gexec : String → String)
    (userReq : String) : Nat → Nat → List Message → RunResult
  | 0, iter, msgs => ⟨iter, Outcome.Exhausted, msgs, [], []⟩
  | fuel + 1, iter, msgs =>
    let iter' := iter + 1
    let obtained : List Message × String :=
      if iter' = 1 then queryOk oracle msgs userReq else (msgs, lastText msgs)
    let pr := processAgentResponse oracle gexec obtained.1 obtained.2
    let st : StepTrace := ⟨iter', msgs, obtained.1, obtained.2, pr⟩
    if pr.done then ⟨iter', Outcome.Completed, pr.messages, pr.executed, [st]⟩
    else
      let r := loopAux oracle gexec userReq fuel iter' pr.messages
      ⟨r.iterations, r.outcome, r.messages, pr.executed ++ r.executed, st :: r.trace⟩

/-- The fixed system instruction `system_message` of `AIAgentCommand.invoke`. -/
def agentSystemMessage : String :=
  "당신은 GDB 디버거 내에서 동작하는 AI 디버깅 에이전트입니다.\n사용자의 요청에 따라 GDB 명령어를 자동으로 실행하고 결과를 분석할 수 있습니다.\n\nGDB 명령어를 실행하려면 다음 형식으로 응답하세요:\n```gdb-command\n명령어1\n명령어2\n...\n```\n\n분석과 결과를 제공할 때는 다음 형식으로 응답하세요:\n```analysis\n분석 내용과 설명\n```\n\n다음 단계로 진행하려면:\n```next-step\n다음 단계 설명\n```\n\n분석 완료시:\n```complete\n최종 결론과 분석 결과\n```\n\n주의사항:\n1. 안전하지 않은 명령어(quit, exit, kill 등)는 실행되지 않습니다.\n2. 한 번에 너무 많은 명령어를 실행하지 마세요.\n3. 분석 결과는 간결하고 명확하게 작성하세요.\n4. 작업을 완료하면 반드시 ```complete```로 끝내세요.\n"

/-- The fixed acknowledgement seeded as the first assistant message. -/
def agentInitAck : String := "디버깅 에이전트 초기화 완료. 요청을 분석하겠습니다."

/-- The `user_request` f-string of `AIAgentCommand.invoke`: task plus the
formatted context snapshot. -/
def agentUserRequest (arg context : String) : String :=
  "다음 작업을 수행해주세요: " ++ arg ++
    "\n\n현재 디버깅 컨텍스트:\n" ++ context ++
    "\n\n단계별로 분석하고 필요한 GDB 명령어를 실행하여 요청을 해결해주세요."

/-- The session seeding of `AIAgentCommand.invoke`: clear the history, add the
system instruction as a user message and the acknowledgement as an assistant
message. -/
def initialMessages : List Message :=
  addMessage (addMessage [] "user" agentSystemMessage) "assistant" agentInitAck

/-- One agent run of `AIAgentCommand.invoke` (for a non-empty task argument,
under a responsive transport): seed the session and run the loop from
`iteration = 0`. `arg` is the operator's task text and `context` the formatted
context snapshot collected by the (external) context extractor. -/
def runAgent (oracle : List Message → String) (gexec : String → String)
    (arg context : String) : RunResult :=
  loopAux oracle gexec (agentUserRequest arg context) maxIterations 0 initialMessages

/-- The first model response of a run: the oracle's reply to the seeded
history plus the user request. -/
def firstResponse (oracle : List Message → String) (arg context : String) : String :=
  oracle (addMessage initialMessages "user" (agentUserRequest arg context))

/-- The command sequence the code derives from a `gdb-command` block's text:
`group(1).strip().split('\n')`, then each line stripped and empty lines
skipped (read off `_process_agent_response`). -/
def pyParseCommands (content : String) : List String :=
  ((((splitNl (pyStrip content.data)).map String.mk).map pyStripS).filter
    (fun c => decide ¬(c = "")))

/-- Restatement of the spec's parsing contract in its own words: the enclosed
text is split on line boundaries, blank (whitespace-only) lines are dropped,
and the remaining lines are trimmed of surrounding whitespace, in order. -/
def specParseCommands (content : String) : List String :=
  ((splitNl content.data).filter (fun l => decide ¬(pyStrip l = []))).map
    (fun l => String.mk (pyStrip l))

/-- Restatement of the spec's safety-filter contract in its own words: an
empty or all-whitespace command is not safe; otherwise the command is safe
exactly when its first whitespace-delimited token, case-folded, is not in
the denylist. -/
def specIsSafe (command : String) : Bool :=
  if command.data.all isPyWS then false
  else
    match pySplit command.data with
    | [] => false
    | t :: _ => !(denylist.contains (pyLower (String.mk t)))

/-- The record `_process_agent_response` produces for one parsed command:
the `(command, result)` record when the safety filter admits it, the
unsafe-command rejection message otherwise. -/
def recordOf (gexec : String → String) (cmd : String) : String :=
  if is_safe_command cmd then "명령어: " ++ cmd ++ "\n결과:\n" ++ gexec cmd
  else "안전하지 않은 명령어입니다: " ++ cmd

/-- The results-feedback prompt sent back to the model after a command block. -/
def feedbackPrompt (records : List String) : String :=
  "명령어 실행 결과:\n\n" ++ String.intercalate "\n\n" records

/-! Lemmas about the character-level pipeline. -/

theorem splitNl_ne_nil (l : List Char) : splitNl l ≠ [] := by
  induction l with
  | nil => simp [splitNl]
  | cons c cs ih =>
    simp only [splitNl]
    cases h : splitNl cs with
    | nil => simp
    | cons r rs => by_cases hc : c = '\n' <;> simp [hc]

theorem strip_cons_ws {c : Char} (h : isPyWS c = true) (l : List Char) :
    pyStrip (c :: l) = pyStrip l := by
  simp [pyStrip, List.dropWhile_cons, h]

theorem dropWhile_app_of_nil {α : Type} {p : α → Bool} {l : List α}
    (h : l.dropWhile p = []) (t : List α) : (l ++ t).dropWhile p = t.dropWhile p := by
  induction l with
  | nil => rfl
  | cons a as ih =>
    by_cases hp : p a = true
    · simp only [List.dropWhile_cons, hp, if_true] at h
      simp [List.dropWhile_cons, hp, ih h]
    · simp [List.dropWhile_cons, hp] at h

theorem dropWhile_app_of_ne {α : Type} {p : α → Bool} {l : List α}
    (h : l.dropWhile p ≠ []) (t : List α) : (l ++ t).dropWhile p = l.dropWhile p ++ t := by
  induction l with
  | nil => exact absurd rfl h
  | cons a as ih =>
    by_cases hp : p a = true
    · simp only [List.dropWhile_cons, hp, if_true] at h
      simp [List.dropWhile_cons, hp, ih h]
    · simp [List.dropWhile_cons, hp]

theorem strip_concat_ws {c : Char} (h : isPyWS c = true) (l : List Char) :
    pyStrip (l ++ [c]) = pyStrip l := by
  unfold pyStrip
  by_cases h0 : l.dropWhile isPyWS = []
  · rw [dropWhile_app_of_nil h0, h0]
    simp [List.dropWhile_cons, h]
  · rw [dropWhile_app_of_ne h0, List.reverse_append]
    simp [List.dropWhile_cons, h]

/-- Append a character to the last piece of a split (the effect of appending
a non-separator character to the split input). -/
def appLast (c : Char) : List (List Char) → List (List Char)
  | [] => [[c]]
  | [l] => [l ++ [c]]
  | l :: l' :: ls => l :: appLast c (l' :: ls)

theorem splitNl_concat_nl (s : List Char) : splitNl (s ++ ['\n']) = splitNl s ++ [[]] := by
  induction s with
  | nil => simp [splitNl]
  | cons c cs ih =>
    show splitNl (c :: (cs ++ ['\n'])) = _
    cases h : splitNl cs with
    | nil => exact absurd h (splitNl_ne_nil cs)
    | cons r rs =>
      simp only [splitNl, ih, h]
      by_cases hc : c = '\n' <;> simp [hc]

theorem splitNl_concat_ne {c : Char} (h : ¬(c = '\n')) (s : List Char) :
    splitNl (s ++ [c]) = appLast c (splitNl s) := by
  induction s with
  | nil => simp [splitNl, appLast, h]
  | cons d cs ih =>
    show splitNl (d :: (cs ++ [c])) = _
    cases h0 : splitNl cs with
    | nil => exact absurd h0 (splitNl_ne_nil cs)
    | cons r rs =>
      cases rs with
      | nil =>
        simp only [splitNl, ih, h0, appLast]
        by_cases hd : d = '\n' <;> simp [hd, appLast]
      | cons r' rs' =>
        simp only [splitNl, ih, h0, appLast]
        by_cases hd : d = '\n' <;> simp [hd, appLast]

/-- The composite of line split, per-line strip and blank-line removal. -/
def stripLines (l : List Char) : List (List Char) :=
  ((splitNl l).map pyStrip).filter (fun x => decide ¬(x = []))

theorem stripLines_cons_ws {c : Char} (h : isPyWS c = true) (cs : List Char) :
    stripLines (c :: cs) = stripLines cs := by
  unfold stripLines
  cases h0 : splitNl cs with
  | nil => exact absurd h0 (splitNl_ne_nil cs)
  | cons r rs =>
    simp only [splitNl, h0]
    by_cases hc : c = '\n'
    · simp [hc, pyStrip]
    · simp [hc, strip_cons_ws h]

theorem stripLines_dropWhile (l : List Char) :
    stripLines (l.dropWhile isPyWS) = stripLines l := by
  induction l with
  | nil => rfl
  | cons c cs ih =>
    by_cases h : isPyWS c = true
    · rw [List.dropWhile_cons, if_pos h, ih, stripLines_cons_ws h]
    · rw [List.dropWhile_cons, if_neg h]

theorem filter_map_appLast {c : Char} (h : isPyWS c = true) (L : List (List Char)) :
    ((appLast c L).map pyStrip).filter (fun x => decide ¬(x = [])) =
      (L.map pyStrip).filter (fun x => decide ¬(x = [])) := by
  induction L with
  | nil => simp [appLast, pyStrip, List.dropWhile_cons, h]
  | cons l ls ih =>
    cases ls with
    | nil => simp [appLast, strip_concat_ws h]
    | cons l' ls' => simp only [appLast, List.map_cons, List.filter_cons, ih]

theorem stripLines_concat_ws {c : Char} (h : isPyWS c = true) (s : List Char) :
    stripLines (s ++ [c]) = stripLines s := by
  by_cases hc : c = '\n'
  · subst hc
    unfold stripLines
    rw [splitNl_concat_nl]
    simp [pyStrip]
  · unfold stripLines
    rw [splitNl_concat_ne hc, filter_map_appLast h]

theorem stripLines_append_allws {t : List Char} (ht : ∀ c ∈ t, isPyWS c = true) :
    ∀ s, stripLines (s ++ t) = stripLines s := by
  induction t using List.reverseRecOn with
  | nil => simp
  | append_singleton t' c ih =>
    intro s
    have hc : isPyWS c = true := ht c (by simp)
    have ht' : ∀ d ∈ t', isPyWS d = true := fun d hd => ht d (by simp [hd])
    rw [← List.append_assoc, stripLines_concat_ws hc, ih ht']

theorem strip_decomp (l : List Char) :
    ∃ w, l.dropWhile isPyWS = pyStrip l ++ w ∧ ∀ c ∈ w, isPyWS c = true := by
  refine ⟨((l.dropWhile isPyWS).reverse.takeWhile isPyWS).reverse, ?_, ?_⟩
  · conv_lhs => rw [← (l.dropWhile isPyWS).reverse_reverse,
      ← List.takeWhile_append_dropWhile (p := isPyWS) (l := (l.dropWhile isPyWS).reverse)]
    rw [List.reverse_append]
    rfl
  · intro c hc
    rw [List.mem_reverse] at hc
    exact List.mem_takeWhile_imp hc

theorem stripLines_strip (l : List Char) : stripLines (pyStrip l) = stripLines l := by
  obtain ⟨w, hw, hws⟩ := strip_decomp l
  calc stripLines (pyStrip l)
      = stripLines (pyStrip l ++ w) := (stripLines_append_allws hws _).symm
    _ = stripLines (l.dropWhile isPyWS) := by rw [hw]
    _ = stripLines l := stripLines_dropWhile l

theorem map_strip_filter (L : List (List Char)) :
    ((L.map pyStrip).filter (fun x => decide ¬(x = []))) =
      (L.filter (fun l => decide ¬(pyStrip l = []))).map pyStrip := by
  induction L with
  | nil => rfl
  | cons l ls ih =>
    simp only [decide_not] at ih
    by_cases h : pyStrip l = [] <;> simp [List.filter_cons, h, ih]

theorem mk_eq_empty_iff (l : List Char) : (String.mk l = "") ↔ l = [] := by
  constructor
  · intro h
    simpa using congrArg String.data h
  · intro h
    subst h
    rfl

theorem filter_mk (X : List (List Char)) :
    ((X.map (fun l => String.mk (pyStrip l))).filter (fun c => decide ¬(c = ""))) =
      ((X.map pyStrip).filter (fun x => decide ¬(x = []))).map String.mk := by
  induction X with
  | nil => rfl
  | cons l ls ih =>
    simp only [decide_not] at ih
    by_cases h : pyStrip l = []
    · simp [List.filter_cons, (mk_eq_empty_iff (pyStrip l)).mpr h, h, ih]
    · have h' : ¬(String.mk (pyStrip l) = "") := fun hc => h ((mk_eq_empty_iff _).mp hc)
      simp [List.filter_cons, h', h, ih]

/-! Lemmas about `pySplit` (Python `str.split()`). -/

theorem pySplit_dropWhile (l : List Char) : pySplit (l.dropWhile isPyWS) = pySplit l := by
  induction l with
  | nil => rfl
  | cons c cs ih =>
    by_cases h : isPyWS c = true
    · rw [List.dropWhile_cons, if_pos h, ih, pySplit_cons_ws h]
    · rw [List.dropWhile_cons, if_neg h]

theorem pySplit_all_ws {l : List Char} (h : ∀ c ∈ l, isPyWS c = true) :
    pySplit l = [] := by
  induction l with
  | nil => exact pySplit_nil
  | cons c cs ih =>
    rw [pySplit_cons_ws (h c (by simp))]
    exact ih fun d hd => h d (by simp [hd])

theorem takeWhile_app_of_nil {α : Type} {p : α → Bool} {l : List α}
    (h : l.dropWhile p = []) (t : List α) : (l ++ t).takeWhile p = l ++ t.takeWhile p := by
  induction l with
  | nil => rfl
  | cons a as ih =>
    by_cases hp : p a = true
    · simp only [List.dropWhile_cons, hp, if_true] at h
      simp [List.takeWhile_cons, hp, ih h]
    · simp [List.dropWhile_cons, hp] at h

theorem takeWhile_app_of_ne {α : Type} {p : α → Bool} {l : List α}
    (h : l.dropWhile p ≠ []) (t : List α) : (l ++ t).takeWhile p = l.takeWhile p := by
  induction l with
  | nil => exact absurd rfl h
  | cons a as ih =>
    by_cases hp : p a = true
    · simp only [List.dropWhile_cons, hp, if_true] at h
      simp [List.takeWhile_cons, hp, ih h]
    · simp [List.takeWhile_cons, hp]

theorem takeWhile_self_of_dropWhile_nil {α : Type} {p : α → Bool} {l : List α}
    (h : l.dropWhile p = []) : l.takeWhile p = l := by
  conv_rhs => rw [← List.takeWhile_append_dropWhile (p := p) (l := l)]
  rw [h, List.append_nil]

theorem pySplit_append_allws {t : List Char} (ht : ∀ c ∈ t, isPyWS c = true) :
    ∀ l : List Char, pySplit (l ++ t) = pySplit l := by
  intro l
  generalize hn : l.length = n
  induction n using Nat.strong_induction_on generalizing l with
  | _ n ih =>
    cases l with
    | nil =>
      rw [List.nil_append, pySplit_nil, pySplit_all_ws ht]
    | cons c cs =>
      simp only [List.length_cons] at hn
      by_cases hw : isPyWS c = true
      · rw [List.cons_append, pySplit_cons_ws hw, pySplit_cons_ws hw]
        exact ih cs.length (by omega) cs rfl
      · rw [List.cons_append, pySplit_cons_tok hw, pySplit_cons_tok hw]
        by_cases h0 : cs.dropWhile (fun d => !isPyWS d) = []
        · have htw : t.takeWhile (fun d => !isPyWS d) = [] := by
            cases t with
            | nil => rfl
            | cons d t' => simp [List.takeWhile_cons, ht d (by simp)]
          have hdw : t.dropWhile (fun d => !isPyWS d) = t := by
            cases t with
            | nil => rfl
            | cons d t' => simp [List.dropWhile_cons, ht d (by simp)]
          rw [takeWhile_app_of_nil h0, dropWhile_app_of_nil h0, htw, hdw,
            takeWhile_self_of_dropWhile_nil h0, h0, List.append_nil,
            pySplit_nil, pySplit_all_ws ht]
        · rw [takeWhile_app_of_ne h0, dropWhile_app_of_ne h0]
          have hlt : (cs.dropWhile (fun d => !isPyWS d)).length < n :=
            Nat.lt_of_le_of_lt (dropWhile_len_le _ cs) (by omega)
          rw [ih _ hlt (cs.dropWhile (fun d => !isPyWS d)) rfl]

theorem pySplit_strip (l : List Char) : pySplit (pyStrip l) = pySplit l := by
  obtain ⟨w, hw, hws⟩ := strip_decomp l
  calc pySplit (pyStrip l)
      = pySplit (pyStrip l ++ w) := (pySplit_append_allws hws _).symm
    _ = pySplit (l.dropWhile isPyWS) := by rw [hw]
    _ = pySplit l := pySplit_dropWhile l

theorem pySplit_nil_iff (l : List Char) :
    pySplit l = [] ↔ ∀ c ∈ l, isPyWS c = true := by
  constructor
  · intro h
    induction l with
    | nil => simp
    | cons c cs ih =>
      by_cases hc : isPyWS c = true
      · rw [pySplit_cons_ws hc] at h
        intro d hd
        rcases List.mem_cons.mp hd with rfl | hd'
        · exact hc
        · exact ih h d hd'
      · rw [pySplit_cons_tok hc] at h
        exact absurd h (by simp)
  · exact pySplit_all_ws

/-! Lemmas about the session and response processing. -/

theorem geminiRole_user : geminiRole "user" = "user" := rfl

theorem geminiRole_assistant : geminiRole "assistant" = "model" := rfl

theorem addMessage_user (msgs : List Message) (content : String) :
    addMessage msgs "user" content = msgs ++ [("user", content)] := rfl

theorem addMessage_assistant (msgs : List Message) (content : String) :
    addMessage msgs "assistant" content = msgs ++ [("model", content)] := rfl

theorem lastText_concat (msgs : List Message) (m : Message) :
    lastText (msgs ++ [m]) = m.2 := by
  unfold lastText
  rw [List.getLast?_concat]

theorem queryOk_fst (oracle : List Message → String) (msgs : List Message) (p : String) :
    (queryOk oracle msgs p).1 =
      (msgs ++ [("user", p)]) ++ [("model", oracle (msgs ++ [("user", p)]))] := rfl

theorem queryOk_snd (oracle : List Message → String) (msgs : List Message) (p : String) :
    (queryOk oracle msgs p).2 = oracle (msgs ++ [("user", p)]) := rfl

theorem lastText_queryOk (oracle : List Message → String) (msgs : List Message) (p : String) :
    lastText (queryOk oracle msgs p).1 = oracle (msgs ++ [("user", p)]) := by
  rw [queryOk_fst, lastText_concat]

theorem process_done (oracle : List Message → String) (gexec : String → String)
    (msgs : List Message) (r : String) :
    (processAgentResponse oracle gexec msgs r).done =
      (extractBlock "complete" r).isSome := by
  unfold processAgentResponse
  cases extractBlock "gdb-command" r <;> rfl

theorem process_messages_none {r : String} (oracle : List Message → String)
    (gexec : String → String) (msgs : List Message)
    (h : extractBlock "gdb-command" r = none) :
    (processAgentResponse oracle gexec msgs r).messages = msgs := by
  unfold processAgentResponse
  rw [h]

theorem process_messages_some {r content : String} (oracle : List Message → String)
    (gexec : String → String) (msgs : List Message)
    (h : extractBlock "gdb-command" r = some content) :
    ∃ sent, (processAgentResponse oracle gexec msgs r).messages =
      (queryOk oracle msgs sent).1 := by
  unfold processAgentResponse
  rw [h]
  exact ⟨_, rfl⟩

theorem processCmds_eq (gexec : String → String) (ls : List String) :
    processCmds gexec ls =
      (((ls.map pyStripS).filter (fun c => decide ¬(c = ""))).map (recordOf gexec),
        ((ls.map pyStripS).filter (fun c => decide ¬(c = ""))).filter is_safe_command) := by
  induction ls with
  | nil => rfl
  | cons cmd rest ih =>
    rw [processCmds]
    by_cases h : pyStripS cmd = ""
    · simp [h, ih, List.filter_cons]
    · by_cases hs : is_safe_command (pyStripS cmd) = true
      · simp [h, hs, ih, List.filter_cons, recordOf]
      · simp [h, hs, ih, List.filter_cons, recordOf]

theorem process_cmd_some {r content : String} (oracle : List Message → String)
    (gexec : String → String) (msgs : List Message)
    (h : extractBlock "gdb-command" r = some content) :
    processAgentResponse oracle gexec msgs r =
      { messages := (queryOk oracle msgs
          (feedbackPrompt ((pyParseCommands content).map (recordOf gexec)))).1
        done := (extractBlock "complete" r).isSome
        executed := (pyParseCommands content).filter is_safe_command
        records := (pyParseCommands content).map (recordOf gexec)
        feedbackSent := true
        sentText := some (feedbackPrompt ((pyParseCommands content).map (recordOf gexec)))
        analysisShown := (extractBlock "analysis" r).map pyStripS
        nextStepShown := (extractBlock "next-step" r).map pyStripS
        completeShown := (extractBlock "complete" r).map pyStripS } := by
  unfold processAgentResponse
  rw [h]
  have hrec := processCmds_eq gexec ((splitNl (pyStrip content.data)).map String.mk)
  have h1 : (processCmds gexec ((splitNl (pyStrip content.data)).map String.mk)).1 =
      (pyParseCommands content).map (recordOf gexec) := by rw [hrec]; rfl
  have h2 : (processCmds gexec ((splitNl (pyStrip content.data)).map String.mk)).2 =
      (pyParseCommands content).filter is_safe_command := by rw [hrec]; rfl
  simp only [h1, h2, feedbackPrompt]

/-! Unfolding equations for one loop step. -/

theorem loopAux_zero (oracle : List Message → String) (gexec : String → String)
    (uq : String) (iter : Nat) (msgs : List Message) :
    loopAux oracle gexec uq 0 iter msgs = ⟨iter, Outcome.Exhausted, msgs, [], []⟩ := rfl

theorem loopAux_step_query (oracle : List Message → String) (gexec : String → String)
    (uq : String) (fuel : Nat) (msgs : List Message) :
    loopAux oracle gexec uq (fuel + 1) 0 msgs =
      (let q := queryOk oracle msgs uq
       let pr := processAgentResponse oracle gexec q.1 q.2
       if pr.done then
         ⟨1, Outcome.Completed, pr.messages, pr.executed, [⟨1, msgs, q.1, q.2, pr⟩]⟩
       else
         let r := loopAux oracle gexec uq fuel 1 pr.messages
         ⟨r.iterations, r.outcome, r.messages, pr.executed ++ r.executed,
           ⟨1, msgs, q.1, q.2, pr⟩ :: r.trace⟩) := by
  simp only [loopAux, if_true]

theorem loopAux_step_reuse (oracle : List Message → String) (gexec : String → String)
    (uq : String) (fuel iter : Nat) (msgs : List Message) (hiter : ¬(iter + 1 = 1)) :
    loopAux oracle gexec uq (fuel + 1) iter msgs =
      (let pr := processAgentResponse oracle gexec msgs (lastText msgs)
       if pr.done then
         ⟨iter + 1, Outcome.Completed, pr.messages, pr.executed,
           [⟨iter + 1, msgs, msgs, lastText msgs, pr⟩]⟩
       else
         let r := loopAux oracle gexec uq fuel (iter + 1) pr.messages
         ⟨r.iterations, r.outcome, r.messages, pr.executed ++ r.executed,
           ⟨iter + 1, msgs, msgs, lastText msgs, pr⟩ :: r.trace⟩) := by
  simp only [loopAux, if_neg hiter]

/-! Run-level lemmas. -/

theorem process_noComplete_step (oracle : List Message → String) (gexec : String → String)
    (msgs1 : List Message) (r : String)
    (H : ∀ m, extractBlock "complete" (oracle m) = none)
    (hr : extractBlock "complete" r = none)
    (hm : extractBlock "complete" (lastText msgs1) = none) :
    (processAgentResponse oracle gexec msgs1 r).done = false ∧
      extractBlock "complete"
        (lastText (processAgentResponse oracle gexec msgs1 r).messages) = none := by
  refine ⟨by rw [process_done, hr]; rfl, ?_⟩
  cases h : extractBlock "gdb-command" r with
  | none =>
    rw [process_messages_none oracle gexec msgs1 h]
    exact hm
  | some content =>
    obtain ⟨sent, hsent⟩ := process_messages_some oracle gexec msgs1 h
    rw [hsent, lastText_queryOk]
    exact H _

theorem loopAux_exhausts (oracle : List Message → String) (gexec : String → String)
    (uq : String) (H : ∀ m, extractBlock "complete" (oracle m) = none) :
    ∀ fuel iter msgs, extractBlock "complete" (lastText msgs) = none →
      (loopAux oracle gexec uq fuel iter msgs).iterations = iter + fuel ∧
        (loopAux oracle gexec uq fuel iter msgs).outcome = Outcome.Exhausted := by
  intro fuel
  induction fuel with
  | zero => intro iter msgs _; exact ⟨rfl, rfl⟩
  | succ fuel ih =>
    intro iter msgs hm
    by_cases h1 : iter + 1 = 1
    · have hiter : iter = 0 := by omega
      subst hiter
      rw [loopAux_step_query]
      have hresp : extractBlock "complete" ((queryOk oracle msgs uq).2) = none := by
        rw [queryOk_snd]
        exact H _
      have hq : extractBlock "complete" (lastText ((queryOk oracle msgs uq).1)) = none := by
        rw [lastText_queryOk]
        exact H _
      obtain ⟨hdone, hinv⟩ := process_noComplete_step oracle gexec _ _ H hresp hq
      obtain ⟨hit, hout⟩ := ih 1 _ hinv
      simp only [hdone, Bool.false_eq_true, if_false, hit, hout]
      exact ⟨by omega, trivial⟩
    · rw [loopAux_step_reuse oracle gexec uq fuel iter msgs h1]
      obtain ⟨hdone, hinv⟩ := process_noComplete_step oracle gexec msgs (lastText msgs) H hm hm
      obtain ⟨hit, hout⟩ := ih (iter + 1) _ hinv
      simp only [hdone, Bool.false_eq_true, if_false, hit, hout]
      exact ⟨by omega, trivial⟩

/-! Claim theorems. -/

/-- C2: for every command string, `is_safe_command` returns false if the string
is empty or consists only of whitespace; otherwise it returns false exactly
when the first whitespace-delimited token, case-folded, is in the fixed
denylist, and returns true for every other first token regardless of trailing
arguments (the result depends only on the first token, as `specIsSafe`
states the spec's words). -/
theorem claim_C2_safety_filter (command : String) :
    is_safe_command command = specIsSafe command := by
  unfold is_safe_command specIsSafe
  rw [pySplit_strip]
  by_cases h : command.data.all isPyWS = true
  · have h0 : pySplit command.data = [] :=
      pySplit_all_ws (fun c hc => List.all_eq_true.mp h c hc)
    rw [h0, if_pos h]
  · rw [if_neg h]

/-- C9: for every `gdb-command` block, the command pipeline of
`_process_agent_response` (strip the block, split on newlines, strip each
line, skip empties) equals the spec's description (split on line boundaries,
drop blank lines, trim the rest, order preserved); in particular a block of
three lines with one blank yields the two trimmed commands in order. -/
theorem pyParse_eq_specParse (content : String) :
    pyParseCommands content = specParseCommands content := by
  unfold pyParseCommands specParseCommands
  generalize content.data = d
  calc ((((splitNl (pyStrip d)).map String.mk).map pyStripS).filter
            (fun c => decide ¬(c = "")))
        = (((splitNl (pyStrip d)).map (fun l => String.mk (pyStrip l))).filter
            (fun c => decide ¬(c = ""))) := by rw [List.map_map]; rfl
      _ = (((splitNl (pyStrip d)).map pyStrip).filter
            (fun x => decide ¬(x = []))).map String.mk := filter_mk _
      _ = (stripLines (pyStrip d)).map String.mk := rfl
      _ = (stripLines d).map String.mk := by rw [stripLines_strip]
      _ = (((splitNl d).map pyStrip).filter (fun x => decide ¬(x = []))).map String.mk := rfl
      _ = (((splitNl d).filter (fun l => decide ¬(pyStrip l = []))).map pyStrip).map
            String.mk := by rw [map_strip_filter]
      _ = ((splitNl d).filter (fun l => decide ¬(pyStrip l = []))).map
            (fun l => String.mk (pyStrip l)) := by rw [List.map_map]; rfl

/-- C9: for every `gdb-command` block, the command pipeline of
`_process_agent_response` (strip the block, split on newlines, strip each
line, skip empties) equals the spec's description (split on line boundaries,
drop blank lines, trim the rest, order preserved); in particular a block of
three lines with one blank yields the two trimmed commands in order. -/
theorem claim_C9_command_parsing :
    (∀ content : String, pyParseCommands content = specParseCommands content) ∧
      pyParseCommands "  info locals\n   \nprint x  " = ["info locals", "print x"] :=
  ⟨pyParse_eq_specParse, rfl⟩

theorem process_executed_none {r : String} (oracle : List Message → String)
    (gexec : String → String) (msgs : List Message)
    (h : extractBlock "gdb-command" r = none) :
    (processAgentResponse oracle gexec msgs r).executed = [] := by
  unfold processAgentResponse
  rw [h]

theorem loopAux_iter_bound (oracle : List Message → String) (gexec : String → String)
    (uq : String) :
    ∀ fuel iter msgs,
      (loopAux oracle gexec uq fuel iter msgs).iterations ≤ iter + fuel ∧
        ((loopAux oracle gexec uq fuel iter msgs).outcome = Outcome.Exhausted →
          (loopAux oracle gexec uq fuel iter msgs).iterations = iter + fuel) := by
  intro fuel
  induction fuel with
  | zero => intro iter msgs; exact ⟨Nat.le_refl _, fun _ => rfl⟩
  | succ fuel ih =>
    intro iter msgs
    by_cases h1 : iter + 1 = 1
    · have h0 : iter = 0 := by omega
      subst h0
      rw [loopAux_step_query]
      by_cases hd : (processAgentResponse oracle gexec (queryOk oracle msgs uq).1
          (queryOk oracle msgs uq).2).done = true
      · simp only [hd, if_true]
        exact ⟨by omega, fun hc => by cases hc⟩
      · simp only [hd, Bool.false_eq_true, if_false]
        obtain ⟨hle, hex⟩ := ih 1 (processAgentResponse oracle gexec
          (queryOk oracle msgs uq).1 (queryOk oracle msgs uq).2).messages
        exact ⟨by omega, fun hc => by rw [hex hc]; omega⟩
    · rw [loopAux_step_reuse oracle gexec uq fuel iter msgs h1]
      by_cases hd : (processAgentResponse oracle gexec msgs (lastText msgs)).done = true
      · simp only [hd, if_true]
        exact ⟨by omega, fun hc => by cases hc⟩
      · simp only [hd, Bool.false_eq_true, if_false]
        obtain ⟨hle, hex⟩ := ih (iter + 1) (processAgentResponse oracle gexec msgs
          (lastText msgs)).messages
        exact ⟨by omega, fun hc => by rw [hex hc]; omega⟩

/-- C1: an agent run in which no model response contains a complete block
performs exactly `max_iterations` (10) iterations and then terminates in the
Exhausted outcome ("did not complete" notice) and never iterates further;
moreover (last conjunct) every run — `runAgent` being a total function, every
run terminates — performs at most `max_iterations` iterations and ends
Exhausted exactly when the budget was fully used, i.e. it ends either by
observing a Complete block or by reaching `max_iterations`. -/
theorem claim_C1_exhaustion (oracle : List Message → String) (gexec : String → String)
    (arg context : String)
    (H : ∀ m, extractBlock "complete" (oracle m) = none) :
    (runAgent oracle gexec arg context).iterations = maxIterations ∧
      (runAgent oracle gexec arg context).outcome = Outcome.Exhausted ∧
      (∀ (oracle' : List Message → String) (gexec' : String → String) (arg' ctx' : String),
        (runAgent oracle' gexec' arg' ctx').iterations ≤ maxIterations ∧
          ((runAgent oracle' gexec' arg' ctx').outcome = Outcome.Exhausted →
            (runAgent oracle' gexec' arg' ctx').iterations = maxIterations)) := by
  have h0 : extractBlock "complete" (lastText initialMessages) = none := rfl
  have h := loopAux_exhausts oracle gexec (agentUserRequest arg context) H
    maxIterations 0 initialMessages h0
  refine ⟨by simpa [runAgent] using h.1, by simpa [runAgent] using h.2,
    fun oracle' gexec' arg' ctx' => ?_⟩
  have hb := loopAux_iter_bound oracle' gexec' (agentUserRequest arg' ctx')
    maxIterations 0 initialMessages
  exact ⟨by simpa [runAgent] using hb.1, fun hc => by
    have := hb.2 (by simpa [runAgent] using hc)
    simpa [runAgent] using this⟩

/-- Witness for C1: a concrete oracle whose replies never contain a complete
block yields a 10-iteration Exhausted run. -/
theorem claim_C1_exhaustion_witness :
    (runAgent (fun _ => "") (fun _ => "") "task" "ctx").iterations = maxIterations ∧
      (runAgent (fun _ => "") (fun _ => "") "task" "ctx").outcome = Outcome.Exhausted ∧
      (∀ (oracle' : List Message → String) (gexec' : String → String) (arg' ctx' : String),
        (runAgent oracle' gexec' arg' ctx').iterations ≤ maxIterations ∧
          ((runAgent oracle' gexec' arg' ctx').outcome = Outcome.Exhausted →
            (runAgent oracle' gexec' arg' ctx').iterations = maxIterations)) :=
  claim_C1_exhaustion (fun _ => "") (fun _ => "") "task" "ctx" (fun _ => rfl)

/-- First response of the C3 counterexample run: both a gdb-command block and a
complete block. -/
def c3resp : String :=
  "```gdb-command\nbacktrace\n```\n```complete\nfin\n```"

/-- C3 counterexample: a run whose first response contains a complete block
(and also a gdb-command block) terminates after 1 iteration in Completed, yet
a command IS executed during the run — refuting "no commands are executed". -/
theorem claim_C3_counterexample :
    (extractBlock "complete" (firstResponse (fun _ => c3resp) "t" "c")).isSome = true ∧
      (runAgent (fun _ => c3resp) (fun _ => "ok") "t" "c").iterations = 1 ∧
      (runAgent (fun _ => c3resp) (fun _ => "ok") "t" "c").outcome = Outcome.Completed ∧
      (runAgent (fun _ => c3resp) (fun _ => "ok") "t" "c").executed = ["backtrace"] ∧
      ¬((runAgent (fun _ => c3resp) (fun _ => "ok") "t" "c").executed = []) := by
  refine ⟨rfl, ?_, ?_, ?_, ?_⟩ <;> decide

/-- C3 amended: a run whose first model response contains a complete block
terminates after exactly 1 iteration in the Completed outcome; and if that
response contains no gdb-command block, no commands are executed during the
run. -/
theorem claim_C3_amended (oracle : List Message → String) (gexec : String → String)
    (arg context : String)
    (h : (extractBlock "complete" (firstResponse oracle arg context)).isSome = true) :
    (runAgent oracle gexec arg context).iterations = 1 ∧
      (runAgent oracle gexec arg context).outcome = Outcome.Completed ∧
      (extractBlock "gdb-command" (firstResponse oracle arg context) = none →
        (runAgent oracle gexec arg context).executed = []) := by
  have hdone : (processAgentResponse oracle gexec
      (queryOk oracle initialMessages (agentUserRequest arg context)).1
      (queryOk oracle initialMessages (agentUserRequest arg context)).2).done = true := by
    rw [process_done]
    exact h
  unfold runAgent maxIterations
  rw [show (10 : Nat) = 9 + 1 from rfl, loopAux_step_query]
  simp only [hdone, if_true]
  exact ⟨trivial, trivial, fun hnone => process_executed_none oracle gexec _ hnone⟩

/-- Witness for the amended C3: a first response that is just a complete block
gives a 1-iteration Completed run with nothing executed. -/
theorem claim_C3_amended_witness :
    (runAgent (fun _ => "```complete\nfin\n```") (fun _ => "") "t" "c").iterations = 1 ∧
      (runAgent (fun _ => "```complete\nfin\n```") (fun _ => "") "t" "c").outcome =
        Outcome.Completed ∧
      (runAgent (fun _ => "```complete\nfin\n```") (fun _ => "") "t" "c").executed = [] :=
  ⟨(claim_C3_amended (fun _ => "```complete\nfin\n```") (fun _ => "") "t" "c" rfl).1,
    (claim_C3_amended (fun _ => "```complete\nfin\n```") (fun _ => "") "t" "c" rfl).2.1,
    (claim_C3_amended (fun _ => "```complete\nfin\n```") (fun _ => "") "t" "c" rfl).2.2 rfl⟩

/-- C8 counterexample: the role mapping of `add_message` is not idempotent —
applied to the already-mapped label "model" (the image of "assistant") it
yields "user", not "model". -/
theorem claim_C8_counterexample :
    geminiRole (geminiRole "assistant") ≠ geminiRole "assistant" := by decide

/-- C8 amended: the internal-role-to-external-label mapping of
`MCPClient.add_message` is total — every role string is assigned exactly one
external label, always "user" or "model" — but it is not idempotent: the
already-mapped label "user" is preserved while the already-mapped label
"model" is mapped to "user". -/
theorem claim_C8_amended :
    (∀ role : String, geminiRole role = "user" ∨ geminiRole role = "model") ∧
      geminiRole "user" = "user" ∧ geminiRole "model" = "user" := by
  refine ⟨fun role => ?_, rfl, rfl⟩
  unfold geminiRole
  by_cases h : role = "assistant"
  · rw [if_pos h]
    exact Or.inr rfl
  · rw [if_neg h]
    exact Or.inl rfl

theorem splitFirst_none_no_occurrence (needle : List Char) :
    ∀ hay, splitFirst needle hay = none → ∀ p s, hay ≠ p ++ needle ++ s := by
  intro hay
  induction hay with
  | nil =>
    intro h p s hps
    by_cases hn : needle.isEmpty = true
    · rw [splitFirst, if_pos hn] at h
      cases h
    · have hlen := congrArg List.length hps
      simp only [List.length_nil, List.length_append] at hlen
      have hne : needle = [] := List.eq_nil_of_length_eq_zero (by omega)
      rw [hne] at hn
      simp at hn
  | cons c cs ih =>
    intro h p s hps
    have hnp : ¬(needle.isPrefixOf (c :: cs) = true) := by
      intro hpre
      rw [splitFirst, if_pos hpre] at h
      cases h
    have hrec : splitFirst needle cs = none := by
      rw [splitFirst, if_neg hnp] at h
      cases hsc : splitFirst needle cs with
      | none => rfl
      | some pr =>
        rw [hsc] at h
        cases pr
        cases h
    cases p with
    | nil =>
      rw [List.nil_append] at hps
      exact hnp (List.isPrefixOf_iff_prefix.mpr ⟨s, hps.symm⟩)
    | cons d p' =>
      rw [List.cons_append, List.cons_append] at hps
      injection hps with hc hcs
      exact ih hrec p' s hcs

theorem string_data_append (a b : String) : (a ++ b).data = a.data ++ b.data := rfl

theorem no_substr_of_splitFirst_none {needle hay : String}
    (h : splitFirst needle.data hay.data = none) :
    ¬∃ p s : String, hay = p ++ needle ++ s := by
  rintro ⟨p, s, hps⟩
  refine splitFirst_none_no_occurrence needle.data hay.data h p.data s.data ?_
  rw [hps]
  rw [string_data_append, string_data_append]

/-- C5 counterexample: a 200 response whose body is not valid JSON makes
`result = response.json()` raise an uncaught decode error; the run fails with
the decoder's own message, which does not contain the raw failure payload
anywhere — refuting "the raised error's message includes the raw failure
payload" for this unparseable-payload failure. (The history half of the claim
does hold here: only the request message was appended.) -/
theorem claim_C5_counterexample :
    query (fun _ => ⟨200, "not json",
        Except.error "Expecting value: line 1 column 1 (char 0)"⟩) [] "hi" =
      ([("user", "hi")],
        Except.error "Expecting value: line 1 column 1 (char 0)") ∧
      ¬∃ p s : String,
        "Expecting value: line 1 column 1 (char 0)" = p ++ "not json" ++ s :=
  ⟨rfl, no_substr_of_splitFirst_none (by decide)⟩

theorem query_cases (transport : List Message → HttpResponse)
    (msgs : List Message) (message : String) :
    (query transport msgs message).1 = addMessage msgs "user" message ∨
      ∃ t, query transport msgs message =
        (addMessage (addMessage msgs "user" message) "assistant" t, Except.ok t) := by
  unfold query
  by_cases hs : (transport (addMessage msgs "user" message)).status ≠ 200
  · rw [if_pos hs]
    exact Or.inl rfl
  · rw [if_neg hs]
    generalize (transport (addMessage msgs "user" message)).json = j
    cases j with
    | error e0 => exact Or.inl rfl
    | ok payload =>
      obtain ⟨rend, ex⟩ := payload
      cases ex with
      | ok t => exact Or.inr ⟨t, rfl⟩
      | keyIndexErr e0 => exact Or.inl rfl
      | typeErr e0 => exact Or.inl rfl

/-- C5 amended: every successful `MCPClient.query` grows the history by
exactly two messages — the prompt with role user, then the returned text with
role model — and returns the response text; every failure leaves the history
with exactly the request message appended and nothing else. The raised
error's message includes the raw failure payload for transport failures
(non-200 status embeds `response.text`) and for payloads whose text-field
extraction fails with a KeyError/IndexError (the caught branch embeds
`result`); but a body that is not valid JSON, or a payload whose extraction
raises another exception such as a TypeError, escapes uncaught with that
exception's own message, without the payload embedded. -/
theorem claim_C5_amended (transport : List Message → HttpResponse)
    (msgs : List Message) (message : String) :
    (∀ t payload, (transport (msgs ++ [("user", message)])).status = 200 →
      (transport (msgs ++ [("user", message)])).json = Except.ok payload →
      payload.extract = ExtractOutcome.ok t →
      query transport msgs message =
        (msgs ++ [("user", message), ("model", t)], Except.ok t)) ∧
    (∀ e, (query transport msgs message).2 = Except.error e →
      (query transport msgs message).1 = msgs ++ [("user", message)]) ∧
    ((transport (msgs ++ [("user", message)])).status ≠ 200 →
      ∃ e, query transport msgs message =
          (msgs ++ [("user", message)], Except.error e) ∧
        ∃ p, e = p ++ (transport (msgs ++ [("user", message)])).text) ∧
    (∀ payload en, (transport (msgs ++ [("user", message)])).status = 200 →
      (transport (msgs ++ [("user", message)])).json = Except.ok payload →
      payload.extract = ExtractOutcome.keyIndexErr en →
      ∃ e, query transport msgs message =
          (msgs ++ [("user", message)], Except.error e) ∧
        ∃ p, e = p ++ payload.rendered) ∧
    (∀ en, (transport (msgs ++ [("user", message)])).status = 200 →
      (transport (msgs ++ [("user", message)])).json = Except.error en →
      query transport msgs message =
        (msgs ++ [("user", message)], Except.error en)) ∧
    (∀ payload en, (transport (msgs ++ [("user", message)])).status = 200 →
      (transport (msgs ++ [("user", message)])).json = Except.ok payload →
      payload.extract = ExtractOutcome.typeErr en →
      query transport msgs message =
        (msgs ++ [("user", message)], Except.error en)) := by
  have hm1 : addMessage msgs "user" message = msgs ++ [("user", message)] := rfl
  refine ⟨fun t payload hs hj hx => ?_, fun e he => ?_, fun hs => ?_,
    fun payload en hs hj hx => ?_, fun en hs hj => ?_, fun payload en hs hj hx => ?_⟩
  · unfold query
    rw [hm1, if_neg (by rw [hs]; exact fun hne => hne rfl)]
    simp only [hj, hx]
    simp [addMessage, geminiRole, List.append_assoc]
  · rcases query_cases transport msgs message with hq | ⟨t, hq⟩
    · exact hq
    · rw [hq] at he
      simp at he
  · unfold query
    rw [hm1, if_pos hs]
    exact ⟨_, rfl, _, rfl⟩
  · unfold query
    rw [hm1, if_neg (by rw [hs]; exact fun hne => hne rfl)]
    simp only [hj, hx]
    exact ⟨_, rfl, _, rfl⟩
  · unfold query
    rw [hm1, if_neg (by rw [hs]; exact fun hne => hne rfl)]
    simp only [hj]
  · unfold query
    rw [hm1, if_neg (by rw [hs]; exact fun hne => hne rfl)]
    simp only [hj, hx]

/-- Witness for the amended C5: the branches at concrete transports — a
well-formed 200 response, a 404 transport failure, a caught KeyError payload,
an invalid-JSON body, and a TypeError payload. -/
theorem claim_C5_amended_witness :
    query (fun _ => ⟨200, "raw", Except.ok ⟨"rendered", ExtractOutcome.ok "ok"⟩⟩)
        [] "hi" = ([("user", "hi"), ("model", "ok")], Except.ok "ok") ∧
      (query (fun _ => ⟨404, "bad", Except.error "boom"⟩) [] "hi").1 =
        [("user", "hi")] ∧
      (∃ e, query (fun _ => ⟨404, "bad", Except.error "boom"⟩) [] "hi" =
        ([("user", "hi")], Except.error e) ∧ ∃ p, e = p ++ "bad") ∧
      (∃ e, query (fun _ => ⟨200, "raw",
          Except.ok ⟨"rendered", ExtractOutcome.keyIndexErr "KeyError"⟩⟩) [] "hi" =
        ([("user", "hi")], Except.error e) ∧ ∃ p, e = p ++ "rendered") ∧
      query (fun _ => ⟨200, "not json", Except.error "decode error"⟩) [] "hi" =
        ([("user", "hi")], Except.error "decode error") ∧
      query (fun _ => ⟨200, "raw",
          Except.ok ⟨"rendered", ExtractOutcome.typeErr "TypeError"⟩⟩) [] "hi" =
        ([("user", "hi")], Except.error "TypeError") :=
  ⟨(claim_C5_amended (fun _ => ⟨200, "raw", Except.ok ⟨"rendered",
      ExtractOutcome.ok "ok"⟩⟩) [] "hi").1 "ok" ⟨"rendered", ExtractOutcome.ok "ok"⟩
      rfl rfl rfl,
    (claim_C5_amended (fun _ => ⟨404, "bad", Except.error "boom"⟩) [] "hi").2.1
      "API 오류: 404 - bad" rfl,
    (claim_C5_amended (fun _ => ⟨404, "bad", Except.error "boom"⟩) [] "hi").2.2.1
      (by decide),
    (claim_C5_amended (fun _ => ⟨200, "raw", Except.ok ⟨"rendered",
      ExtractOutcome.keyIndexErr "KeyError"⟩⟩) [] "hi").2.2.2.1
      ⟨"rendered", ExtractOutcome.keyIndexErr "KeyError"⟩ "KeyError" rfl rfl rfl,
    (claim_C5_amended (fun _ => ⟨200, "not json", Except.error "decode error"⟩)
      [] "hi").2.2.2.2.1 "decode error" rfl rfl,
    (claim_C5_amended (fun _ => ⟨200, "raw", Except.ok ⟨"rendered",
      ExtractOutcome.typeErr "TypeError"⟩⟩) [] "hi").2.2.2.2.2
      ⟨"rendered", ExtractOutcome.typeErr "TypeError"⟩ "TypeError" rfl rfl rfl⟩

/-- C4: a response containing both a gdb-command block and a complete block
(processed as the last stored message on a later iteration) still executes
the block's commands and issues the results-feedback send — the final history
of the processing call contains the feedback exchange while `done` is already
true — and loop control exits immediately after that response is processed:
the run ends at that very iteration in Completed, with no further iteration
reacting to the just-executed command results. -/
theorem claim_C4_command_and_complete (oracle : List Message → String)
    (gexec : String → String) (uq : String) (msgs : List Message) (c : String)
    (h1 : extractBlock "gdb-command" (lastText msgs) = some c)
    (h2 : (extractBlock "complete" (lastText msgs)).isSome = true) :
    (processAgentResponse oracle gexec msgs (lastText msgs)).done = true ∧
      (processAgentResponse oracle gexec msgs (lastText msgs)).feedbackSent = true ∧
      (processAgentResponse oracle gexec msgs (lastText msgs)).executed =
        (pyParseCommands c).filter is_safe_command ∧
      (processAgentResponse oracle gexec msgs (lastText msgs)).messages =
        (queryOk oracle msgs
          (feedbackPrompt ((pyParseCommands c).map (recordOf gexec)))).1 ∧
      (∀ fuel iter,
        loopAux oracle gexec uq (fuel + 1) (iter + 1) msgs =
          ⟨iter + 2, Outcome.Completed,
            (processAgentResponse oracle gexec msgs (lastText msgs)).messages,
            (processAgentResponse oracle gexec msgs (lastText msgs)).executed,
            [⟨iter + 2, msgs, msgs, lastText msgs,
              processAgentResponse oracle gexec msgs (lastText msgs)⟩]⟩) := by
  have hrec := process_cmd_some oracle gexec msgs h1
  have hdone : (processAgentResponse oracle gexec msgs (lastText msgs)).done = true := by
    rw [hrec]
    exact h2
  refine ⟨hdone, by rw [hrec], by rw [hrec], by rw [hrec], fun fuel iter => ?_⟩
  rw [loopAux_step_reuse oracle gexec uq fuel (iter + 1) msgs (by omega)]
  simp only [hdone, if_true]

/-- First response of the C4 witness run: the spec's example command block
(one safe, one denylisted command) together with a complete block. -/
def c4resp : String :=
  "```gdb-command\ninfo locals\nquit\n```\n```complete\nend\n```"

/-- Witness for C4 at a concrete history whose last message is `c4resp`. -/
theorem claim_C4_command_and_complete_witness :
    (processAgentResponse (fun _ => "r") (fun _ => "out") [("model", c4resp)]
        (lastText [("model", c4resp)])).done = true ∧
      (processAgentResponse (fun _ => "r") (fun _ => "out") [("model", c4resp)]
        (lastText [("model", c4resp)])).feedbackSent = true ∧
      (processAgentResponse (fun _ => "r") (fun _ => "out") [("model", c4resp)]
        (lastText [("model", c4resp)])).executed =
        (pyParseCommands "info locals\nquit\n").filter is_safe_command ∧
      (processAgentResponse (fun _ => "r") (fun _ => "out") [("model", c4resp)]
        (lastText [("model", c4resp)])).messages =
        (queryOk (fun _ => "r") [("model", c4resp)]
          (feedbackPrompt ((pyParseCommands "info locals\nquit\n").map
            (recordOf (fun _ => "out"))))).1 ∧
      (∀ fuel iter,
        loopAux (fun _ => "r") (fun _ => "out") "u" (fuel + 1) (iter + 1)
            [("model", c4resp)] =
          ⟨iter + 2, Outcome.Completed,
            (processAgentResponse (fun _ => "r") (fun _ => "out") [("model", c4resp)]
              (lastText [("model", c4resp)])).messages,
            (processAgentResponse (fun _ => "r") (fun _ => "out") [("model", c4resp)]
              (lastText [("model", c4resp)])).executed,
            [⟨iter + 2, [("model", c4resp)], [("model", c4resp)],
              lastText [("model", c4resp)],
              processAgentResponse (fun _ => "r") (fun _ => "out") [("model", c4resp)]
                (lastText [("model", c4resp)])⟩]⟩) :=
  claim_C4_command_and_complete (fun _ => "r") (fun _ => "out") "u"
    [("model", c4resp)] "info locals\nquit\n" rfl rfl

/-- C6: for a processed response with a gdb-command block, each parsed command
is checked in order — safe ones are executed and recorded as
command-and-result records, unsafe ones are recorded as rejection messages —
all records are joined into one results string, exactly one additional send
(two new history messages) carries that string back to the model, and this
send happens inside the same loop iteration: the loop step that processes the
response advances the iteration counter by exactly one. -/
theorem claim_C6_command_records (oracle : List Message → String)
    (gexec : String → String) (uq : String) (msgs : List Message) (r c : String)
    (h : extractBlock "gdb-command" r = some c) :
    (processAgentResponse oracle gexec msgs r).records =
        (pyParseCommands c).map (recordOf gexec) ∧
      (processAgentResponse oracle gexec msgs r).executed =
        (pyParseCommands c).filter is_safe_command ∧
      (processAgentResponse oracle gexec msgs r).feedbackSent = true ∧
      (processAgentResponse oracle gexec msgs r).sentText =
        some (feedbackPrompt ((pyParseCommands c).map (recordOf gexec))) ∧
      (processAgentResponse oracle gexec msgs r).messages.length = msgs.length + 2 ∧
      (∀ fuel iter, lastText msgs = r →
        (processAgentResponse oracle gexec msgs r).done = false →
        loopAux oracle gexec uq (fuel + 1) (iter + 1) msgs =
          ⟨(loopAux oracle gexec uq fuel (iter + 2)
              (processAgentResponse oracle gexec msgs r).messages).iterations,
            (loopAux oracle gexec uq fuel (iter + 2)
              (processAgentResponse oracle gexec msgs r).messages).outcome,
            (loopAux oracle gexec uq fuel (iter + 2)
              (processAgentResponse oracle gexec msgs r).messages).messages,
            (processAgentResponse oracle gexec msgs r).executed ++
              (loopAux oracle gexec uq fuel (iter + 2)
                (processAgentResponse oracle gexec msgs r).messages).executed,
            ⟨iter + 2, msgs, msgs, r, processAgentResponse oracle gexec msgs r⟩ ::
              (loopAux oracle gexec uq fuel (iter + 2)
                (processAgentResponse oracle gexec msgs r).messages).trace⟩) := by
  have hrec := process_cmd_some oracle gexec msgs h
  refine ⟨by rw [hrec], by rw [hrec], by rw [hrec], by rw [hrec], ?_,
    fun fuel iter hlast hdone => ?_⟩
  · rw [hrec]
    show (queryOk oracle msgs _).1.length = msgs.length + 2
    rw [queryOk_fst]
    simp
  · rw [loopAux_step_reuse oracle gexec uq fuel (iter + 1) msgs (by omega)]
    rw [hlast] at *
    simp only [hdone, Bool.false_eq_true, if_false]

/-- First response of the C6 witness run: the spec's example command block. -/
def c6resp : String := "```gdb-command\ninfo locals\nquit\n```"

/-- Witness for C6 at the spec's example block, with the loop conjunct
instantiated at a concrete iteration. -/
theorem claim_C6_command_records_witness :
    (processAgentResponse (fun _ => "r") (fun _ => "out") [("model", c6resp)]
        c6resp).records =
        (pyParseCommands "info locals\nquit\n").map (recordOf (fun _ => "out")) ∧
      (processAgentResponse (fun _ => "r") (fun _ => "out") [("model", c6resp)]
        c6resp).executed =
        (pyParseCommands "info locals\nquit\n").filter is_safe_command ∧
      (processAgentResponse (fun _ => "r") (fun _ => "out") [("model", c6resp)]
        c6resp).feedbackSent = true ∧
      (processAgentResponse (fun _ => "r") (fun _ => "out") [("model", c6resp)]
        c6resp).sentText =
        some (feedbackPrompt ((pyParseCommands "info locals\nquit\n").map
          (recordOf (fun _ => "out")))) ∧
      loopAux (fun _ => "r") (fun _ => "out") "u" (0 + 1) (0 + 1)
          [("model", c6resp)] =
        ⟨(loopAux (fun _ => "r") (fun _ => "out") "u" 0 (0 + 2)
            (processAgentResponse (fun _ => "r") (fun _ => "out")
              [("model", c6resp)] c6resp).messages).iterations,
          (loopAux (fun _ => "r") (fun _ => "out") "u" 0 (0 + 2)
            (processAgentResponse (fun _ => "r") (fun _ => "out")
              [("model", c6resp)] c6resp).messages).outcome,
          (loopAux (fun _ => "r") (fun _ => "out") "u" 0 (0 + 2)
            (processAgentResponse (fun _ => "r") (fun _ => "out")
              [("model", c6resp)] c6resp).messages).messages,
          (processAgentResponse (fun _ => "r") (fun _ => "out") [("model", c6resp)]
              c6resp).executed ++
            (loopAux (fun _ => "r") (fun _ => "out") "u" 0 (0 + 2)
              (processAgentResponse (fun _ => "r") (fun _ => "out")
                [("model", c6resp)] c6resp).messages).executed,
          ⟨0 + 2, [("model", c6resp)], [("model", c6resp)], c6resp,
              processAgentResponse (fun _ => "r") (fun _ => "out")
                [("model", c6resp)] c6resp⟩ ::
            (loopAux (fun _ => "r") (fun _ => "out") "u" 0 (0 + 2)
              (processAgentResponse (fun _ => "r") (fun _ => "out")
                [("model", c6resp)] c6resp).messages).trace⟩ :=
  ⟨(claim_C6_command_records (fun _ => "r") (fun _ => "out") "u" [("model", c6resp)]
      c6resp "info locals\nquit\n" rfl).1,
    (claim_C6_command_records (fun _ => "r") (fun _ => "out") "u" [("model", c6resp)]
      c6resp "info locals\nquit\n" rfl).2.1,
    (claim_C6_command_records (fun _ => "r") (fun _ => "out") "u" [("model", c6resp)]
      c6resp "info locals\nquit\n" rfl).2.2.1,
    (claim_C6_command_records (fun _ => "r") (fun _ => "out") "u" [("model", c6resp)]
      c6resp "info locals\nquit\n" rfl).2.2.2.1,
    (claim_C6_command_records (fun _ => "r") (fun _ => "out") "u" [("model", c6resp)]
      c6resp "info locals\nquit\n" rfl).2.2.2.2.2 0 0 rfl rfl⟩

theorem loopAux_trace_reuse (oracle : List Message → String) (gexec : String → String)
    (uq : String) :
    ∀ fuel iter msgs,
      ((loopAux oracle gexec uq fuel iter msgs).trace.all fun st =>
        decide (st.idx ≤ 1) ||
          (decide (st.msgsAfterObtain = st.msgsBefore) &&
            decide (st.response = lastText st.msgsBefore))) = true := by
  intro fuel
  induction fuel with
  | zero => intro iter msgs; rfl
  | succ fuel ih =>
    intro iter msgs
    by_cases h1 : iter + 1 = 1
    · have h0 : iter = 0 := by omega
      subst h0
      rw [loopAux_step_query]
      by_cases hd : (processAgentResponse oracle gexec (queryOk oracle msgs uq).1
          (queryOk oracle msgs uq).2).done = true
      · simp [hd]
      · simp only [hd, Bool.false_eq_true, if_false]
        simp [ih]
    · rw [loopAux_step_reuse oracle gexec uq fuel iter msgs h1]
      by_cases hd : (processAgentResponse oracle gexec msgs (lastText msgs)).done = true
      · simp [hd, h1]
      · simp only [hd, Bool.false_eq_true, if_false]
        simp [ih, h1]

/-- C7: on every iteration after the first, the controller issues no fresh
remote query to obtain the text it processes — the history is unchanged at
the moment the response is obtained (a query would have appended to it) and
the processed response equals the content of the most recent message stored
in the history at that point. -/
theorem claim_C7_reuse_last_message (oracle : List Message → String)
    (gexec : String → String) (arg context : String) :
    ((runAgent oracle gexec arg context).trace.all fun st =>
      decide (st.idx ≤ 1) ||
        (decide (st.msgsAfterObtain = st.msgsBefore) &&
          decide (st.response = lastText st.msgsBefore))) = true :=
  loopAux_trace_reuse oracle gexec (agentUserRequest arg context) maxIterations 0
    initialMessages

/-- C10: a gdb-command block whose enclosed text consists only of blank or
whitespace-only lines executes nothing, yet the results-feedback send is
still issued (exactly two messages are appended by it), carrying the results
prefix with an empty record section. -/
theorem claim_C10_blank_block (oracle : List Message → String)
    (gexec : String → String) (msgs : List Message) (r c : String)
    (h : extractBlock "gdb-command" r = some c)
    (hb : ∀ l ∈ splitNl c.data, pyStrip l = []) :
    (processAgentResponse oracle gexec msgs r).executed = [] ∧
      (processAgentResponse oracle gexec msgs r).records = [] ∧
      (processAgentResponse oracle gexec msgs r).feedbackSent = true ∧
      (processAgentResponse oracle gexec msgs r).sentText = some (feedbackPrompt []) ∧
      feedbackPrompt [] = "명령어 실행 결과:\n\n" ∧
      (processAgentResponse oracle gexec msgs r).messages.length = msgs.length + 2 := by
  have hnil : pyParseCommands c = [] := by
    rw [pyParse_eq_specParse]
    unfold specParseCommands
    have : (splitNl c.data).filter (fun l => decide ¬(pyStrip l = [])) = [] := by
      rw [List.filter_eq_nil_iff]
      intro l hl
      simp [hb l hl]
    rw [this]
    rfl
  have hrec := process_cmd_some oracle gexec msgs h
  refine ⟨by rw [hrec, hnil]; rfl, by rw [hrec, hnil]; rfl, by rw [hrec],
    by rw [hrec, hnil]; rfl, by decide, ?_⟩
  rw [hrec]
  show (queryOk oracle msgs _).1.length = msgs.length + 2
  rw [queryOk_fst]
  simp

/-- Witness for C10: a block containing one whitespace-only line and one empty
line. -/
theorem claim_C10_blank_block_witness :
    (processAgentResponse (fun _ => "r") (fun _ => "out") []
        "```gdb-command\n \n\n```").executed = [] ∧
      (processAgentResponse (fun _ => "r") (fun _ => "out") []
        "```gdb-command\n \n\n```").records = [] ∧
      (processAgentResponse (fun _ => "r") (fun _ => "out") []
        "```gdb-command\n \n\n```").feedbackSent = true ∧
      (processAgentResponse (fun _ => "r") (fun _ => "out") []
        "```gdb-command\n \n\n```").sentText = some (feedbackPrompt []) ∧
      feedbackPrompt [] = "명령어 실행 결과:\n\n" ∧
      (processAgentResponse (fun _ => "r") (fun _ => "out") []
        "```gdb-command\n \n\n```").messages.length =
        ([] : List Message).length + 2 :=
  claim_C10_blank_block (fun _ => "r") (fun _ => "out") [] "```gdb-command\n \n\n```"
    " \n\n" rfl (by decide)

end GdbMcp
